import Mathlib

/-!
Verification of the EvoLab simulation engine (`GameEngine`, in
`src/components/Game/StatsPanel.tsx`) against its specification.

The engine is shallowly embedded over `ℚ`: the source stores all scalar
quantities in JavaScript `number`s / `Float32Array`s, which we model as
rational numbers with explicit truncating-remainder semantics where the
source uses the JS `%` operator.  Structure-of-arrays entity storage
(parallel `Float32Array`s indexed by a shared handle plus an active-flag
array and a LIFO free-list stack) is modelled by `Store`: one record per
slot, an active-flag list, and the live portion of the free-list stack
(`oFree[0..oFreePtr]`, top of stack first — after a reset the source pops
indices in the order `0, 1, 2, …`, so the stack reads `[0, 1, 2, …]`).
Calls to `Math.random()` are modelled by explicit randomness parameters.
Rendering, camera and canvas state are outside the embedded core.
-/

namespace EvoLab

/-- Truncation toward zero, as used by the JS `%` operator. -/
def ratTrunc (q : ℚ) : ℤ := if 0 ≤ q then ⌊q⌋ else ⌈q⌉

/-- The JS remainder operator `a % n` (sign follows the dividend). -/
def jsRem (a n : ℚ) : ℚ := a - n * ratTrunc (a / n)

/-- Mathematical (floor) modulus on rationals, for stating wrap claims. -/
def ratFloorMod (a n : ℚ) : ℚ := a - n * ⌊a / n⌋

/-- `Math.max(lo, Math.min(hi, x))`, the clamping pattern used throughout
the source. -/
def clamp (lo hi x : ℚ) : ℚ := max lo (min hi x)

/-- One organism slot: position, velocity, energy, and the eight genetic
traits.  The source keeps these as parallel arrays
(`oX/oY/oVX/oVY/oEnergy` and `gSpeed/gSize/gSense/gRepro/gWander/
gDefense/gMeta/gHue`); here the fields of one index are gathered into a
record addressed by the same handle.  `metab` is the `gMeta` trait. -/
structure Org where
  x : ℚ
  y : ℚ
  vx : ℚ
  vy : ℚ
  energy : ℚ
  speed : ℚ
  size : ℚ
  sense : ℚ
  repro : ℚ
  wander : ℚ
  defense : ℚ
  metab : ℚ
  hue : ℚ
deriving DecidableEq

/-- The all-zero organism record, used as the out-of-range default for
slot lookups that are always in range in the source. -/
def org0 : Org := ⟨0, 0, 0, 0, 0, 0, 0, 0, 0, 0, 0, 0, 0⟩

/-- One food slot (`fX`/`fY`). -/
structure Food where
  x : ℚ
  y : ℚ
deriving DecidableEq

/-- `GameConfig`: the global tunables. -/
structure Config where
  initialPop : ℚ
  initialFood : ℚ
  mutationRate : ℚ
  mutationChance : ℚ
  baseMetabolism : ℚ
  startEnergy : ℚ
  predatorSizeAdvantage : ℚ
  foodValue : ℚ
  maxToxicity : ℚ
  zoneCount : ℚ
  zoneDensity : ℚ
  zoneDrift : ℚ
  zoneSize : ℚ
deriving DecidableEq

/-- The default config values of the `GameEngine` constructor. -/
def defaultConfig : Config :=
  { initialPop := 50, initialFood := 150, mutationRate := 1/2,
    mutationChance := 9/10, baseMetabolism := 1/500, startEnergy := 150,
    predatorSizeAdvantage := 6/5, foodValue := 25, maxToxicity := 9/10,
    zoneCount := 5, zoneDensity := 5, zoneDrift := 3/10, zoneSize := 350 }

/-- A drifting hazard zone (`{pos, radius, vel}`). -/
structure Zone where
  pos : ℚ × ℚ
  radius : ℚ
  vel : ℚ × ℚ
deriving DecidableEq

/-- Randomness consumed by one `spawnOrganism` call: the two initial
velocity draws, the mutation draws for the inherited branch, and the
draws of the non-inherited initial-trait branch.  `g t` models
`Math.random() < chance` for trait `t` (in source order: speed, size,
sense, repro, wander, defense, metabolism, hue); `r t` models the
magnitude draw `Math.random()` for that trait. -/
structure SpawnRnd where
  rvx : ℚ
  rvy : ℚ
  g : Fin 8 → Bool
  r : Fin 8 → ℚ
  init : Fin 8 → ℚ

/-- A fixed, arbitrary randomness value (used only in concrete tests). -/
def spawnRnd0 : SpawnRnd :=
  { rvx := 0, rvy := 0, g := fun _ => false, r := fun _ => 0, init := fun _ => 0 }

/-- The inherited branch of `spawnOrganism` (parent index ≠ −1): copy the
parent traits, apply the per-trait mutation gate, clamp all traits to
their declared range, wrap hue with `(hue + 360) % 360`, and set the
initial energy to half the (mutated) reproduction threshold. -/
def inheritOrg (cfg : Config) (p : Org) (x y : ℚ) (rnd : SpawnRnd) : Org :=
  let rate := cfg.mutationRate
  let speed := p.speed + (if rnd.g 0 then (rnd.r 0 - 1/2) * rate * 2 else 0)
  let size := p.size + (if rnd.g 1 then (rnd.r 1 - 1/2) * rate * 6 else 0)
  let sense := p.sense + (if rnd.g 2 then (rnd.r 2 - 1/2) * rate * 30 else 0)
  let repro := p.repro + (if rnd.g 3 then (rnd.r 3 - 1/2) * 400 * rate else 0)
  let wander := p.wander + (if rnd.g 4 then (rnd.r 4 - 1/2) * (2/10) else 0)
  let defense := p.defense + (if rnd.g 5 then (rnd.r 5 - 1/2) * (3/10) else 0)
  let metab := p.metab + (if rnd.g 6 then (rnd.r 6 - 1/2) * rate * (1/2) else 0)
  let hue := p.hue + (if rnd.g 7 then (rnd.r 7 - 1/2) * 30 else 0)
  let speed := clamp (1/2) 8 speed
  let size := clamp 4 30 size
  let sense := clamp 20 300 sense
  let repro := clamp 100 2500 repro
  let wander := clamp (1/20) 2 wander
  let defense := clamp 0 1 defense
  let metab := clamp (1/2) 3 metab
  let hue := jsRem (hue + 360) 360
  { x := x, y := y, vx := rnd.rvx - 1/2, vy := rnd.rvy - 1/2,
    energy := repro * (1/2),
    speed := speed, size := size, sense := sense, repro := repro,
    wander := wander, defense := defense, metab := metab, hue := hue }

/-- The non-inherited branch of `spawnOrganism` (parent index = −1):
fresh traits drawn uniformly from trait-specific sub-ranges. -/
def freshOrg (x y : ℚ) (rnd : SpawnRnd) : Org :=
  let repro := rnd.init 3 * 1900 + 100
  { x := x, y := y, vx := rnd.rvx - 1/2, vy := rnd.rvy - 1/2,
    energy := repro * (1/2),
    speed := rnd.init 0 * 2 + 3/2, size := rnd.init 1 * 8 + 5,
    sense := rnd.init 2 * 80 + 40, repro := repro,
    wander := rnd.init 4 * (1/2) + 1/10, defense := rnd.init 5 * (1/10),
    metab := 1, hue := rnd.init 6 * 360 }

/-- Trait ranges declared by the clamping code of `spawnOrganism`, plus
hue in `[0, 360)`. -/
def TraitsInRange (o : Org) : Prop :=
  (1/2 ≤ o.speed ∧ o.speed ≤ 8) ∧
  (4 ≤ o.size ∧ o.size ≤ 30) ∧
  (20 ≤ o.sense ∧ o.sense ≤ 300) ∧
  (100 ≤ o.repro ∧ o.repro ≤ 2500) ∧
  (1/20 ≤ o.wander ∧ o.wander ≤ 2) ∧
  (0 ≤ o.defense ∧ o.defense ≤ 1) ∧
  (1/2 ≤ o.metab ∧ o.metab ≤ 3) ∧
  (0 ≤ o.hue ∧ o.hue < 360)

/-- The toroidal wrap applied after position integration and zone drift:
`if (x < 0) x += W; if (x >= W) x -= W` (two sequential conditionals). -/
def wrapCoord (W x : ℚ) : ℚ :=
  let x1 := if x < 0 then x + W else x
  if W ≤ x1 then x1 - W else x1

/-- Position integration of the behavior step along one axis:
`this.oX[i] += this.oVX[i]` followed by the toroidal wrap. -/
def integrateCoord (W x v : ℚ) : ℚ := wrapCoord W (x + v)

/-- Fixed-capacity slot storage with an active-flag array and a LIFO
free-list stack (`oActive`/`oFree`/`oFreePtr`/`activeCount` for
organisms, `fActive`/`fFree`/`fFreePtr`/`foodCount` for food).  `free`
is the live portion of the free-list stack, top first; `count` is the
running active counter (`activeCount`/`foodCount`). -/
structure Store (α : Type) where
  slots : List α
  activeF : List Bool
  free : List ℕ
  count : ℤ

/-- O(1) allocation: `if (freePtr < 0) return -1;` then pop an index,
set its active flag, bump the counter, and write the slot value. -/
def Store.spawn (st : Store α) (v : α) : Store α × ℤ :=
  match st.free with
  | [] => (st, -1)
  | i :: rest =>
    ({ slots := st.slots.set i v, activeF := st.activeF.set i true,
       free := rest, count := st.count + 1 }, (i : ℤ))

/-- O(1) deallocation (`killOrganism`/`killFood`): clear the active
flag, push the index back on the free stack, decrement the counter. -/
def Store.kill (st : Store α) (i : ℕ) : Store α :=
  { slots := st.slots, activeF := st.activeF.set i false,
    free := i :: st.free, count := st.count - 1 }

/-- The reset loop shared by `init` and `importState`: clear all active
flags and restore the free list to full capacity (`oFree[i] = cap-1-i`,
`freePtr = cap-1`, so indices pop in the order `0, 1, 2, …`). -/
def resetStore (cap : ℕ) (st : Store α) : Store α :=
  { slots := st.slots, activeF := List.replicate cap false,
    free := List.range' 0 cap, count := 0 }

/-- Slot `i` carries a set active flag. -/
def Store.activeAt (st : Store α) (i : ℕ) : Prop := st.activeF[i]? = some true

instance (st : Store α) (i : ℕ) : Decidable (st.activeAt i) := by
  unfold Store.activeAt
  infer_instance

/-- The store invariant of §3: the active counter equals the number of
active-flagged slots and the free-list size equals capacity minus the
active counter; additionally the arrays have fixed length `cap` and the
free list holds distinct, inactive indices (facts needed for the counter
bookkeeping to be preserved). -/
def Inv (cap : ℕ) (st : Store α) : Prop :=
  st.slots.length = cap ∧
  st.activeF.length = cap ∧
  st.count = (st.activeF.count true : ℤ) ∧
  st.free.length = cap - st.activeF.count true ∧
  st.free.Nodup ∧
  ∀ i ∈ st.free, st.activeF[i]? = some false

instance (cap : ℕ) (st : Store α) : Decidable (Inv cap st) := by
  unfold Inv
  infer_instance

/-- Reachable store states: an `init`-style reset of fixed-capacity
arrays, followed by any sequence of spawns and kills.  Kills carry the
fact that the killed index is active, which holds at every call site
(`physicsStep` kills `i` only under `oActive[i]`, predation kills
`other` only under `oActive[other]`, and `killFood` is called only on a
food index found active in the grid). -/
inductive Reach (cap : ℕ) : Store α → Prop
  | reset (st : Store α) (h : st.slots.length = cap) : Reach cap (resetStore cap st)
  | spawn {st : Store α} (v : α) : Reach cap st → Reach cap (st.spawn v).1
  | kill {st : Store α} (i : ℕ) (h : st.activeF[i]? = some true) :
      Reach cap st → Reach cap (st.kill i)

/-- `MAX_POP`, the organism-store capacity. -/
def MAX_POP : ℕ := 100000

/-- `MAX_FOOD`, the food-store capacity. -/
def MAX_FOOD : ℕ := 50000

/-- The slot record written by `spawnOrganism`: fresh random traits when
`parentIdx === -1`, otherwise the inherited-and-mutated copy of the
parent slot (always a live index at call sites). -/
def spawnOrgValue (cfg : Config) (st : Store Org) (x y : ℚ) (parent : ℤ)
    (rnd : SpawnRnd) : Org :=
  if parent = -1 then freshOrg x y rnd
  else inheritOrg cfg (st.slots.getD parent.toNat org0) x y rnd

/-- The engine state relevant to the claims: world scalars and flags,
config, zone list, and the two entity stores.  Camera state, canvas
handles and histogram buffers are rendering collaborators and are not
part of the embedded core. -/
structure Engine where
  worldSize : ℚ
  simSpeed : ℚ
  debugMode : Bool
  predationActive : Bool
  activeZones : Bool
  config : Config
  zones : List Zone
  organisms : Store Org
  food : Store Food

/-- `spawnOrganism` at engine level. -/
def Engine.spawnOrganism (e : Engine) (x y : ℚ) (parent : ℤ) (rnd : SpawnRnd) :
    Engine × ℤ :=
  let r := e.organisms.spawn (spawnOrgValue e.config e.organisms x y parent rnd)
  ({ e with organisms := r.1 }, r.2)

/-- `spawnFood` at engine level. -/
def Engine.spawnFood (e : Engine) (x y : ℚ) : Engine × ℤ :=
  let r := e.food.spawn ⟨x, y⟩
  ({ e with food := r.1 }, r.2)

/-- The values of the active slots, in ascending index order — the order
in which the export loops of `exportState` visit them. -/
def activePairs : List α → List Bool → List α
  | v :: vs, true :: bs => v :: activePairs vs bs
  | _ :: vs, false :: bs => activePairs vs bs
  | _, _ => []

/-- Active slots of a store in index order. -/
def Store.activeList (st : Store α) : List α := activePairs st.slots st.activeF

/-- The 13-field organism tuple of the persistence document:
`[x, y, vx, vy, energy, speed, size, sense, reproThreshold, wander,
defense, metabolism, hue]`. -/
def orgToTuple (o : Org) : List ℚ :=
  [o.x, o.y, o.vx, o.vy, o.energy, o.speed, o.size, o.sense, o.repro,
   o.wander, o.defense, o.metab, o.hue]

/-- Reading an organism tuple back in `importState` (`org[0] … org[12]`).
In JS an entry beyond the tuple length is `undefined` and stores as NaN
in the `Float32Array`; the embedding writes the marker value `0` for such
an entry — no claim depends on the garbage value itself. -/
def tupleToOrg (t : List ℚ) : Org :=
  ⟨t.getD 0 0, t.getD 1 0, t.getD 2 0, t.getD 3 0, t.getD 4 0, t.getD 5 0,
   t.getD 6 0, t.getD 7 0, t.getD 8 0, t.getD 9 0, t.getD 10 0, t.getD 11 0,
   t.getD 12 0⟩

/-- The 2-field food tuple `[x, y]`. -/
def foodToTuple (f : Food) : List ℚ := [f.x, f.y]

/-- Reading a food tuple back (`f[0]`, `f[1]`). -/
def tupleToFood (t : List ℚ) : Food := ⟨t.getD 0 0, t.getD 1 0⟩

/-- The persistence document (`GameState`).  `meta.date` is a wall-clock
string and is omitted; `world.camera` is rendering state and omitted. -/
structure GameDoc where
  version : String
  config : Config
  size : ℚ
  simSpeed : ℚ
  predation : Bool
  zonesFlag : Bool
  debug : Bool
  zones : List Zone
  organisms : List (List ℚ)
  food : List (List ℚ)

/-- `exportState`: one version-tagged document with a config copy, world
scalars and flags, the zone list (a deep value copy in the source, plain
value here), and the active organisms and food in index order. -/
def exportState (e : Engine) : GameDoc :=
  { version := "1.0",
    config := e.config,
    size := e.worldSize,
    simSpeed := e.simSpeed,
    predation := e.predationActive,
    zonesFlag := e.activeZones,
    debug := e.debugMode,
    zones := e.zones,
    organisms := e.organisms.activeList.map orgToTuple,
    food := e.food.activeList.map foodToTuple }

/-- The repopulation loops of `importState`: allocate a fresh index for
each document entity in document order and write its fields.  The source
loop breaks when `freePtr < 0`; folding a spawn that is a no-op on an
empty free list has the same effect (the free list stays empty). -/
def importStoreRaw (vs : List α) (st : Store α) : Store α :=
  vs.foldl (fun s v => (s.spawn v).1) st

/-- Repopulation from raw document tuples. -/
def importStore (ds : List (List ℚ)) (parse : List ℚ → α) (st : Store α) :
    Store α :=
  ds.foldl (fun s t => (s.spawn (parse t)).1) st

/-- `importState`: fully reset both stores (clear active flags, restore
free lists to full capacity), load config, world scalars, flags and the
zone list from the document, then repopulate both stores in document
order, silently truncating beyond capacity. -/
def importState (d : GameDoc) (e : Engine) : Engine :=
  { worldSize := d.size,
    simSpeed := d.simSpeed,
    debugMode := d.debug,
    predationActive := d.predation,
    activeZones := d.zonesFlag,
    config := d.config,
    zones := d.zones,
    organisms := importStore d.organisms tupleToOrg (resetStore MAX_POP e.organisms),
    food := importStore d.food tupleToFood (resetStore MAX_FOOD e.food) }

/-- Export followed by import of the exported document. -/
def roundTrip (e : Engine) : Engine := importState (exportState e) e

/-- Canonical shape of a store during the repopulation loop: the first
`pre.length` slots hold the entities imported so far, all further slots
are inactive, and the free stack continues at index `pre.length`. -/
def midStore (pre stale : List α) (c : ℤ) : Store α :=
  { slots := pre ++ stale,
    activeF := List.replicate pre.length true ++ List.replicate stale.length false,
    free := List.range' pre.length stale.length,
    count := c }

/-- The tiered cost per child of the reproduction step: 300, then 280
above energy 600, then 260 above energy 1200 (the source assigns the
tiers sequentially; the nested conditional is equivalent). -/
def costPerChild (E : ℚ) : ℚ :=
  if 1200 < E then 260 else if 600 < E then 280 else 300

/-- `numOffspring`: `floor(E / costPerChild)` clamped into `[1, 8]`. -/
def offspringCount (E : ℚ) : ℕ :=
  (min 8 (max 1 ⌊E / costPerChild E⌋)).toNat

/-- In-place update of one list entry (a `Float32Array` element write). -/
def modifyIdx (f : α → α) : ℕ → List α → List α
  | _, [] => []
  | 0, a :: as => f a :: as
  | n + 1, a :: as => a :: modifyIdx f n as

/-- `this.oEnergy[i] = v`. -/
def Store.setEnergy (st : Store Org) (i : ℕ) (v : ℚ) : Store Org :=
  { st with slots := modifyIdx (fun o => { o with energy := v }) i st.slots }

/-- Total energy held in active organism slots. -/
def energySum : List Org → List Bool → ℚ
  | o :: os, true :: bs => o.energy + energySum os bs
  | _ :: os, false :: bs => energySum os bs
  | _, _ => 0

/-- Total energy of a store. -/
def totalEnergy (st : Store Org) : ℚ := energySum st.slots st.activeF

/-- One iteration of the offspring loop: spawn a child at the parent
position inheriting from parent slot `i`, and if the spawn succeeded
overwrite the child energy with the parent share
(`if (childIdx !== -1) this.oEnergy[childIdx] = share`). -/
def spawnChild (cfg : Config) (rnd : SpawnRnd) (i : ℕ) (share : ℚ)
    (st : Store Org) : Store Org :=
  let p := st.slots.getD i org0
  let r := st.spawn (inheritOrg cfg p p.x p.y rnd)
  if r.2 = -1 then r.1 else r.1.setEnergy r.2.toNat share

/-- The offspring loop of the reproduction block: `numOffspring`
iterations of `spawnChild`. -/
def reproLoop (cfg : Config) (rnds : ℕ → SpawnRnd) (i : ℕ) (share : ℚ) :
    ℕ → Store Org → Store Org
  | 0, st => st
  | k + 1, st => reproLoop cfg rnds i share k (spawnChild cfg (rnds k) i share st)

/-- The reproduction block of `physicsStep` (lines 683–698): when the
energy of slot `i` exceeds its reproduction threshold, compute the
tiered cost and offspring count, set the parent energy to
`E / (numOffspring + 1)`, and run the offspring loop. -/
def reproStep (cfg : Config) (rnds : ℕ → SpawnRnd) (st : Store Org) (i : ℕ) :
    Store Org :=
  let p := st.slots.getD i org0
  if p.repro < p.energy then
    let n := offspringCount p.energy
    let share := p.energy / (n + 1)
    reproLoop cfg rnds i share n (st.setEnergy i share)
  else st

/-- `getWrappedDistSq`: componentwise absolute difference folded across
the torus seam, then squared and summed. -/
def wrappedDistSq (W x1 y1 x2 y2 : ℚ) : ℚ :=
  let dx := |x1 - x2|
  let dy := |y1 - y2|
  let dx := if W / 2 < dx then W - dx else dx
  let dy := if W / 2 < dy then W - dy else dy
  dx * dx + dy * dy

/-- One predation interaction of the local-interaction block (lines
665–681), between attacker slot `i` and co-located slot `other`: if the
victim is another active organism, the attacker size exceeds the victim
size times `predatorSizeAdvantage`, and the victim lies within the
attacker size radius, then the attacker pays `victim.defense * 30`
energy, absorbs the victim energy plus `victim.size * 5` capped at
`1.5 ×` its reproduction threshold, and the victim is killed. -/
def predationAttack (cfg : Config) (W : ℚ) (st : Store Org) (i other : ℕ) :
    Store Org :=
  let a := st.slots.getD i org0
  let v := st.slots.getD other org0
  if other ≠ i ∧ st.activeAt other then
    if v.size * cfg.predatorSizeAdvantage < a.size then
      if wrappedDistSq W a.x a.y v.x v.y < a.size * a.size then
        (st.setEnergy i
          (min (a.repro * (3/2))
            (a.energy - v.defense * 30 + v.energy + v.size * 5))).kill other
      else st
    else st
  else st

/-- The target zone count used by `init` and `updateEnvironment`:
`Math.ceil(zoneDensity * (worldSize / 3000))`. -/
def targetZoneCount (cfg : Config) (W : ℚ) : ℤ :=
  ⌈cfg.zoneDensity * (W / 3000)⌉

/-- Randomness consumed by one `updateEnvironment` call: draws for a
possibly appended new zone, and the per-zone perturbation gate and
velocity draws. -/
structure ZoneRnd where
  npx : ℚ
  npy : ℚ
  nvx : ℚ
  nvy : ℚ
  perturb : ℕ → Bool
  pvx : ℕ → ℚ
  pvy : ℕ → ℚ

/-- A fixed, arbitrary zone randomness value. -/
def zoneRnd0 : ZoneRnd :=
  { npx := 0, npy := 0, nvx := 0, nvy := 0,
    perturb := fun _ => false, pvx := fun _ => 0, pvy := fun _ => 0 }

/-- Per-tick motion of one zone: advance by the drift velocity and wrap;
with small probability perturb the velocity and re-clamp it into
`[-zoneDrift, zoneDrift]`. -/
def driftZone (cfg : Config) (W : ℚ) (r : ZoneRnd) (k : ℕ) (z : Zone) : Zone :=
  let px := wrapCoord W (z.pos.1 + z.vel.1)
  let py := wrapCoord W (z.pos.2 + z.vel.2)
  let vel :=
    if r.perturb k then
      (clamp (-cfg.zoneDrift) cfg.zoneDrift (z.vel.1 + (r.pvx k - 1/2) * (1/10)),
       clamp (-cfg.zoneDrift) cfg.zoneDrift (z.vel.2 + (r.pvy k - 1/2) * (1/10)))
    else z.vel
  { pos := (px, py), radius := z.radius, vel := vel }

/-- `updateEnvironment`: while zones are enabled, append one new zone if
the list is below the target count, then drift every zone; when zones
are disabled the list is cleared. -/
def updateEnvironment (cfg : Config) (W : ℚ) (active : Bool) (r : ZoneRnd)
    (zones : List Zone) : List Zone :=
  if active then
    let zs :=
      if (zones.length : ℤ) < targetZoneCount cfg W then
        zones ++ [{ pos := (r.npx * W, r.npy * W), radius := cfg.zoneSize,
                    vel := ((r.nvx - 1/2) * cfg.zoneDrift,
                            (r.nvy - 1/2) * cfg.zoneDrift) }]
      else zones
    zs.mapIdx fun k z => driftZone cfg W r k z
  else []

/-- A structurally malformed persistence document: its single organism
tuple has arity 1 instead of 13. -/
def malformedDoc : GameDoc :=
  { version := "1.0", config := defaultConfig, size := 3000, simSpeed := 1,
    predation := true, zonesFlag := true, debug := false, zones := [],
    organisms := [[5]], food := [] }

/-- A freshly constructed engine (capacity-length arrays, empty world). -/
def engine0 : Engine :=
  { worldSize := 3000, simSpeed := 1, debugMode := false,
    predationActive := true, activeZones := true, config := defaultConfig,
    zones := [],
    organisms := { slots := List.replicate MAX_POP org0,
                   activeF := List.replicate MAX_POP false,
                   free := List.range' 0 MAX_POP, count := 0 },
    food := { slots := List.replicate MAX_FOOD ⟨0, 0⟩,
              activeF := List.replicate MAX_FOOD false,
              free := List.range' 0 MAX_FOOD, count := 0 } }

/-- An engine whose free lists are exhausted (used only as a concrete
test input). -/
def engineNoFree : Engine :=
  { worldSize := 3000, simSpeed := 1, debugMode := false,
    predationActive := true, activeZones := true, config := defaultConfig,
    zones := [],
    organisms := { slots := [org0], activeF := [true], free := [], count := 1 },
    food := { slots := [⟨0, 0⟩], activeF := [true], free := [], count := 1 } }

/-- A parent organism above its reproduction threshold (concrete test
input). -/
def pOrg : Org := { org0 with energy := 500, repro := 100 }

/-- A ten-slot store holding `pOrg` with nine free slots. -/
def st5 : Store Org :=
  { slots := pOrg :: List.replicate 9 org0,
    activeF := true :: List.replicate 9 false,
    free := List.range' 1 9, count := 1 }

/-- A one-slot store holding `pOrg` with an exhausted free list. -/
def st1c : Store Org :=
  { slots := [pOrg], activeF := [true], free := [], count := 1 }

/-- A concrete predator (test input). -/
def predA : Org := { org0 with energy := 100, repro := 100, size := 10 }

/-- A concrete co-located prey (test input). -/
def predV : Org := { org0 with x := 1, energy := 50, size := 5, defense := 1/2 }

/-- A two-slot store holding predator and prey. -/
def predStore : Store Org :=
  { slots := [predA, predV], activeF := [true, true], free := [], count := 2 }

/-! ## Helper lemmas -/

theorem clamp_mem (lo hi x : ℚ) (h : lo ≤ hi) :
    lo ≤ clamp lo hi x ∧ clamp lo hi x ≤ hi := by
  constructor
  · exact le_max_left _ _
  · exact max_le h (min_le_left _ _)

theorem jsRem_nonneg_lt (a n : ℚ) (ha : 0 ≤ a) (hn : 0 < n) :
    0 ≤ jsRem a n ∧ jsRem a n < n := by
  have hq : 0 ≤ a / n := div_nonneg ha hn.le
  have htr : ratTrunc (a / n) = ⌊a / n⌋ := by simp [ratTrunc, hq]
  have hfr : jsRem a n = n * Int.fract (a / n) := by
    rw [jsRem, htr, Int.fract]
    field_simp
  constructor
  · rw [hfr]; exact mul_nonneg hn.le (Int.fract_nonneg _)
  · rw [hfr]
    calc n * Int.fract (a / n) < n * 1 :=
          (mul_lt_mul_left hn).mpr (Int.fract_lt_one _)
    _ = n := mul_one n

theorem jsRem_add_eq_floorMod (a n : ℚ) (hn : 0 < n) (ha : -n ≤ a) :
    jsRem (a + n) n = ratFloorMod a n := by
  have h0 : 0 ≤ a + n := by linarith
  have hq : 0 ≤ (a + n) / n := div_nonneg h0 hn.le
  have htr : ratTrunc ((a + n) / n) = ⌊(a + n) / n⌋ := by simp [ratTrunc, hq]
  have hdiv : (a + n) / n = a / n + 1 := by field_simp
  have hfl : ⌊(a + n) / n⌋ = ⌊a / n⌋ + 1 := by rw [hdiv, Int.floor_add_one]
  rw [jsRem, htr, hfl, ratFloorMod]
  push_cast
  ring

theorem count_true_set_true :
    ∀ (l : List Bool) (i : ℕ), l[i]? = some false →
      (l.set i true).count true = l.count true + 1 := by
  intro l
  induction l with
  | nil => intro i h; simp at h
  | cons b bs ih =>
    intro i h
    cases i with
    | zero =>
      simp only [List.getElem?_cons_zero, Option.some.injEq] at h
      subst h
      simp [List.count_cons]
    | succ j =>
      simp only [List.getElem?_cons_succ] at h
      have hj := ih j h
      simp only [List.set_cons_succ, List.count_cons, hj]
      omega

theorem count_true_set_false :
    ∀ (l : List Bool) (i : ℕ), l[i]? = some true →
      (l.set i false).count true + 1 = l.count true := by
  intro l
  induction l with
  | nil => intro i h; simp at h
  | cons b bs ih =>
    intro i h
    cases i with
    | zero =>
      simp only [List.getElem?_cons_zero, Option.some.injEq] at h
      subst h
      simp [List.count_cons]
    | succ j =>
      simp only [List.getElem?_cons_succ] at h
      have hj := ih j h
      simp only [List.set_cons_succ, List.count_cons]
      omega

theorem inv_reset (cap : ℕ) (st : Store α) (h : st.slots.length = cap) :
    Inv cap (resetStore cap st) := by
  refine ⟨h, by simp [resetStore], by simp [resetStore, List.count_replicate],
    by simp [resetStore, List.count_replicate], ?_, ?_⟩
  · exact List.nodup_range' 0 cap
  · intro i hi
    simp only [resetStore] at hi
    have : i < cap := by
      rw [List.mem_range'] at hi
      omega
    simp [resetStore, List.getElem?_replicate, this]

theorem inv_spawn (cap : ℕ) (st : Store α) (v : α) (h : Inv cap st) :
    Inv cap (st.spawn v).1 := by
  obtain ⟨hsl, hal, hc, hf, hnd, hin⟩ := h
  match hfree : st.free with
  | [] => simpa [Store.spawn, hfree] using ⟨hsl, hal, hc, hf, hnd, hin⟩
  | i :: rest =>
    have hiF : st.activeF[i]? = some false :=
      hin i (by rw [hfree]; exact List.mem_cons_self i rest)
    have hcnt := count_true_set_true st.activeF i hiF
    have hlt : st.activeF.count true < cap := by
      have h1 : (st.activeF.set i true).count true ≤ (st.activeF.set i true).length :=
        List.count_le_length _ _
      rw [hcnt, List.length_set, hal] at h1
      omega
    have hndr : rest.Nodup := by
      rw [hfree] at hnd
      exact (List.nodup_cons.mp hnd).2
    have hnotmem : i ∉ rest := by
      rw [hfree] at hnd
      exact (List.nodup_cons.mp hnd).1
    refine ⟨by simp [Store.spawn, hfree, hsl], by simp [Store.spawn, hfree, hal],
      ?_, ?_, ?_, ?_⟩
    · simp only [Store.spawn, hfree]
      rw [hcnt]
      push_cast
      omega
    · simp only [Store.spawn, hfree]
      rw [hcnt]
      have : rest.length + 1 = cap - st.activeF.count true := by
        rw [← hf, hfree]
        simp
      omega
    · simpa [Store.spawn, hfree] using hndr
    · intro j hj
      simp only [Store.spawn, hfree] at hj ⊢
      have hji : j ≠ i := fun he => hnotmem (he ▸ hj)
      rw [List.getElem?_set_ne (Ne.symm hji)]
      exact hin j (by rw [hfree]; exact List.mem_cons_of_mem _ hj)

theorem inv_kill (cap : ℕ) (st : Store α) (i : ℕ) (h : Inv cap st)
    (hact : st.activeF[i]? = some true) : Inv cap (st.kill i) := by
  obtain ⟨hsl, hal, hc, hf, hnd, hin⟩ := h
  have hcnt := count_true_set_false st.activeF i hact
  have hpos : 1 ≤ st.activeF.count true := by omega
  have hcle : st.activeF.count true ≤ cap := by
    rw [← hal]; exact List.count_le_length _ _
  have hnotmem : i ∉ st.free := fun hm => by
    have := hin i hm
    rw [hact] at this
    exact Bool.noConfusion (Option.some.inj this)
  have hilt : i < st.activeF.length := by
    by_contra hge
    rw [List.getElem?_eq_none (by omega)] at hact
    exact Option.noConfusion hact
  refine ⟨by simpa [Store.kill] using hsl, by simp [Store.kill, hal], ?_, ?_, ?_, ?_⟩
  · simp only [Store.kill]
    omega
  · simp only [Store.kill, List.length_cons]
    omega
  · simp only [Store.kill]
    exact List.nodup_cons.mpr ⟨hnotmem, hnd⟩
  · intro j hj
    simp only [Store.kill] at hj ⊢
    rcases List.mem_cons.mp hj with he | hm
    · subst he
      simp [List.getElem?_set_self hilt]
    · by_cases hji : j = i
      · subst hji
        simp [List.getElem?_set_self hilt]
      · rw [List.getElem?_set_ne (Ne.symm hji)]
        exact hin j hm

theorem reach_inv {cap : ℕ} {st : Store α} (h : Reach cap st) : Inv cap st := by
  induction h with
  | reset st h => exact inv_reset cap st h
  | spawn v _ ih => exact inv_spawn _ _ v ih
  | kill i h _ ih => exact inv_kill _ _ i ih h

theorem Store.spawn_nil (st : Store α) (v : α) (h : st.free = []) :
    st.spawn v = (st, -1) := by
  unfold Store.spawn
  rw [h]

theorem inv_importStoreRaw (cap : ℕ) :
    ∀ (vs : List α) (st : Store α), Inv cap st → Inv cap (importStoreRaw vs st) := by
  intro vs
  induction vs with
  | nil => intro st h; simpa [importStoreRaw] using h
  | cons v vs ih =>
    intro st h
    rw [importStoreRaw, List.foldl_cons]
    exact ih _ (inv_spawn _ _ _ h)

theorem importStore_eq_raw (ds : List (List ℚ)) (parse : List ℚ → α)
    (st : Store α) : importStore ds parse st = importStoreRaw (ds.map parse) st := by
  rw [importStore, importStoreRaw, List.foldl_map]

theorem set_append_len (l₁ : List α) (a : α) (l₂ : List α) (x : α) (i : ℕ)
    (h : i = l₁.length) : (l₁ ++ a :: l₂).set i x = l₁ ++ x :: l₂ := by
  subst h
  rw [List.set_append_right _ _ (le_refl _)]
  simp

theorem spawn_mid (d : α) (pre stale : List α) (s₀ : α) (c : ℤ) :
    (midStore pre (s₀ :: stale) c).spawn d =
      (midStore (pre ++ [d]) stale (c + 1), (pre.length : ℤ)) := by
  have hmid : midStore pre (s₀ :: stale) c =
      { slots := pre ++ s₀ :: stale,
        activeF := List.replicate pre.length true ++
          (false :: List.replicate stale.length false),
        free := pre.length :: List.range' (pre.length + 1) stale.length,
        count := c } := by
    simp [midStore, List.range'_succ, List.replicate_succ]
  have h1 : (pre ++ s₀ :: stale).set pre.length d = (pre ++ [d]) ++ stale := by
    rw [set_append_len pre s₀ stale d pre.length rfl]
    simp
  have h2 : (List.replicate pre.length true ++
      (false :: List.replicate stale.length false)).set pre.length true =
      List.replicate (pre ++ [d]).length true ++ List.replicate stale.length false := by
    rw [set_append_len (List.replicate pre.length true) false
      (List.replicate stale.length false) true pre.length (by simp)]
    have : List.replicate (pre ++ [d]).length true =
        List.replicate pre.length true ++ [true] := by
      simp [List.replicate_succ']
    rw [this, List.append_assoc]
    rfl
  have h3 : List.range' (pre.length + 1) stale.length =
      List.range' (pre ++ [d]).length stale.length := by
    simp
  rw [hmid]
  refine congrArg₂ Prod.mk ?_ rfl
  show Store.mk ((pre ++ s₀ :: stale).set pre.length d)
      ((List.replicate pre.length true ++
        (false :: List.replicate stale.length false)).set pre.length true)
      (List.range' (pre.length + 1) stale.length) (c + 1) = _
  rw [h1, h2, h3, midStore]

theorem importRaw_mid :
    ∀ (vs : List α) (pre stale : List α) (c : ℤ),
      importStoreRaw vs (midStore pre stale c) =
        midStore (pre ++ vs.take stale.length) (stale.drop vs.length)
          (c + min vs.length stale.length) := by
  intro vs
  induction vs with
  | nil =>
    intro pre stale c
    simp [importStoreRaw, midStore]
  | cons v vs ih =>
    intro pre stale c
    cases stale with
    | nil =>
      have hstep : ((midStore pre ([] : List α) c).spawn v).1 = midStore pre [] c := by
        rw [Store.spawn_nil _ _ (by simp [midStore])]
      rw [importStoreRaw, List.foldl_cons]
      change importStoreRaw vs (((midStore pre ([] : List α) c).spawn v).1) = _
      rw [hstep, ih]
      simp [midStore]
    | cons s₀ stale' =>
      rw [importStoreRaw, List.foldl_cons]
      change importStoreRaw vs (((midStore pre (s₀ :: stale') c).spawn v).1) = _
      rw [spawn_mid]
      show importStoreRaw vs (midStore (pre ++ [v]) stale' (c + 1)) = _
      rw [ih]
      simp only [List.length_cons, List.take_succ_cons, List.drop_succ_cons,
        Nat.succ_min_succ]
      congr 1
      · simp
      · push_cast
        ring

theorem activePairs_append :
    ∀ (as : List α) (bs : List Bool) (cs : List α) (ds : List Bool),
      as.length = bs.length →
      activePairs (as ++ cs) (bs ++ ds) = activePairs as bs ++ activePairs cs ds := by
  intro as
  induction as with
  | nil =>
    intro bs cs ds h
    have hbs : bs = [] := List.length_eq_zero.mp h.symm
    subst hbs
    simp [activePairs]
  | cons a as ih =>
    intro bs cs ds h
    cases bs with
    | nil => simp at h
    | cons b bs' =>
      simp only [List.length_cons] at h
      cases b
      · simp only [List.cons_append, activePairs, List.append_eq]
        exact ih bs' cs ds (by omega)
      · simp only [List.cons_append, activePairs, List.append_eq]
        rw [ih bs' cs ds (by omega)]

theorem activePairs_true :
    ∀ (as : List α), activePairs as (List.replicate as.length true) = as := by
  intro as
  induction as with
  | nil => simp [activePairs]
  | cons a as ih => simp [activePairs, List.replicate_succ, ih]

theorem activePairs_false :
    ∀ (as : List α) (n : ℕ), activePairs as (List.replicate n false) = [] := by
  intro as
  induction as with
  | nil => intro n; cases n <;> simp [activePairs]
  | cons a as ih =>
    intro n
    cases n with
    | zero => simp [activePairs]
    | succ m => simp [activePairs, List.replicate_succ, ih]

theorem activePairs_length_le :
    ∀ (as : List α) (bs : List Bool), (activePairs as bs).length ≤ bs.length := by
  intro as
  induction as with
  | nil => intro bs; cases bs <;> simp [activePairs]
  | cons a as ih =>
    intro bs
    cases bs with
    | nil => simp [activePairs]
    | cons b bs' =>
      cases b
      · simpa [activePairs] using Nat.le_succ_of_le (ih bs')
      · simpa [activePairs] using ih bs'

theorem activeList_mid (pre stale : List α) (c : ℤ) :
    (midStore pre stale c).activeList = pre := by
  unfold Store.activeList midStore
  rw [activePairs_append pre (List.replicate pre.length true) stale
    (List.replicate stale.length false) (by simp)]
  rw [activePairs_true, activePairs_false, List.append_nil]

theorem reset_eq_mid (cap : ℕ) (st : Store α) (h : st.slots.length = cap) :
    resetStore cap st = midStore [] st.slots 0 := by
  unfold resetStore midStore
  simp [h]

theorem tupleToOrg_orgToTuple (o : Org) : tupleToOrg (orgToTuple o) = o := rfl

theorem tupleToFood_foodToTuple (f : Food) : tupleToFood (foodToTuple f) = f := rfl

theorem import_export_store (cap : ℕ) (st : Store α) (toT : α → List ℚ)
    (fromT : List ℚ → α) (hro : ∀ a, fromT (toT a) = a)
    (hsl : st.slots.length = cap) (hal : st.activeF.length = cap) :
    (importStore (st.activeList.map toT) fromT (resetStore cap st)).activeList
      = st.activeList := by
  rw [importStore_eq_raw, reset_eq_mid cap st hsl, List.map_map]
  have hid : st.activeList.map (fromT ∘ toT) = st.activeList := by
    have : fromT ∘ toT = id := funext hro
    rw [this, List.map_id]
  rw [hid, importRaw_mid]
  have hlen : st.activeList.length ≤ st.slots.length := by
    have h1 := activePairs_length_le st.slots st.activeF
    rw [hal] at h1
    rw [hsl]
    exact h1
  rw [List.take_of_length_le hlen, List.nil_append]
  exact activeList_mid _ _ _

theorem length_modifyIdx (f : α → α) :
    ∀ (i : ℕ) (l : List α), (modifyIdx f i l).length = l.length := by
  intro i l
  induction l generalizing i with
  | nil => cases i <;> rfl
  | cons a as ih =>
    cases i with
    | zero => rfl
    | succ j => simp [modifyIdx, ih]

theorem getElem?_modifyIdx_self (f : α → α) :
    ∀ (i : ℕ) (l : List α), (modifyIdx f i l)[i]? = (l[i]?).map f := by
  intro i l
  induction l generalizing i with
  | nil => cases i <;> rfl
  | cons a as ih =>
    cases i with
    | zero => simp [modifyIdx]
    | succ j => simpa [modifyIdx] using ih j

theorem getElem?_modifyIdx_ne (f : α → α) :
    ∀ (i j : ℕ), i ≠ j → ∀ (l : List α), (modifyIdx f i l)[j]? = l[j]? := by
  intro i j hne l
  induction l generalizing i j with
  | nil => cases i <;> rfl
  | cons a as ih =>
    cases i with
    | zero =>
      cases j with
      | zero => exact absurd rfl hne
      | succ m => simp [modifyIdx]
    | succ n =>
      cases j with
      | zero => simp [modifyIdx]
      | succ m =>
        simp only [modifyIdx, List.getElem?_cons_succ]
        exact ih n m (by omega)

theorem Store.spawn_cons (st : Store α) (v : α) (c : ℕ) (rest : List ℕ)
    (h : st.free = c :: rest) :
    st.spawn v = ({ slots := st.slots.set c v,
                    activeF := st.activeF.set c true,
                    free := rest, count := st.count + 1 }, (c : ℤ)) := by
  unfold Store.spawn
  rw [h]

theorem inv_setEnergy (cap : ℕ) (st : Store Org) (i : ℕ) (v : ℚ)
    (h : Inv cap st) : Inv cap (st.setEnergy i v) := by
  obtain ⟨hsl, hal, hc, hf, hnd, hin⟩ := h
  exact ⟨by simpa [Store.setEnergy, length_modifyIdx] using hsl, hal, hc, hf, hnd, hin⟩

theorem setEnergy_slots_self (st : Store Org) (i : ℕ) (v : ℚ) (o : Org)
    (h : st.slots[i]? = some o) :
    (st.setEnergy i v).slots[i]? = some { o with energy := v } := by
  show (modifyIdx _ i st.slots)[i]? = _
  rw [getElem?_modifyIdx_self, h]
  rfl

theorem setEnergy_slots_ne (st : Store Org) (i j : ℕ) (v : ℚ) (h : i ≠ j) :
    (st.setEnergy i v).slots[j]? = st.slots[j]? :=
  getElem?_modifyIdx_ne _ i j h st.slots

theorem energySum_set_true :
    ∀ (sl : List Org) (af : List Bool) (c : ℕ) (v : Org),
      af[c]? = some false → c < sl.length →
      energySum (sl.set c v) (af.set c true) = energySum sl af + v.energy := by
  intro sl
  induction sl with
  | nil => intro af c v _ hlt; simp at hlt
  | cons o os ih =>
    intro af c v h hlt
    cases af with
    | nil => simp at h
    | cons b bs =>
      cases c with
      | zero =>
        have hb : b = false := by simpa using h
        subst hb
        simp only [List.set_cons_zero, energySum]
        ring
      | succ m =>
        have hm : bs[m]? = some false := by simpa using h
        have hml : m < os.length := by simpa using hlt
        cases b
        · simp only [List.set_cons_succ, energySum]
          exact ih bs m v hm hml
        · simp only [List.set_cons_succ, energySum]
          rw [ih bs m v hm hml]
          ring

theorem energySum_modify_true (g : Org → Org) :
    ∀ (sl : List Org) (af : List Bool) (c : ℕ) (o : Org),
      af[c]? = some true → sl[c]? = some o →
      energySum (modifyIdx g c sl) af = energySum sl af - o.energy + (g o).energy := by
  intro sl
  induction sl with
  | nil => intro af c o _ hs; simp at hs
  | cons o0 os ih =>
    intro af c o h hs
    cases af with
    | nil => simp at h
    | cons b bs =>
      cases c with
      | zero =>
        have hb : b = true := by simpa using h
        have ho : o0 = o := by simpa using hs
        subst hb
        subst ho
        simp only [modifyIdx, energySum]
        ring
      | succ m =>
        have hm : bs[m]? = some true := by simpa using h
        have hos : os[m]? = some o := by simpa using hs
        cases b
        · simp only [modifyIdx, energySum]
          exact ih bs m o hm hos
        · simp only [modifyIdx, energySum]
          rw [ih bs m o hm hos]
          ring

theorem offspringCount_bounds (E : ℚ) :
    1 ≤ offspringCount E ∧ offspringCount E ≤ 8 := by
  unfold offspringCount
  have h1 : (1 : ℤ) ≤ min 8 (max 1 ⌊E / costPerChild E⌋) :=
    le_min (by norm_num) (le_max_left _ _)
  have h2 : min 8 (max 1 ⌊E / costPerChild E⌋) ≤ 8 := min_le_left _ _
  omega

theorem spawnChild_cons (cfg : Config) (rnd : SpawnRnd) (i : ℕ) (share : ℚ)
    (st : Store Org) (c : ℕ) (rest : List ℕ) (hfree : st.free = c :: rest) :
    spawnChild cfg rnd i share st
      = (({ slots := st.slots.set c (inheritOrg cfg (st.slots.getD i org0)
              (st.slots.getD i org0).x (st.slots.getD i org0).y rnd),
            activeF := st.activeF.set c true,
            free := rest, count := st.count + 1 } : Store Org)).setEnergy c share := by
  simp only [spawnChild]
  rw [Store.spawn_cons st _ c rest hfree]
  rw [if_neg (by omega : ¬ ((c : ℤ) = -1))]
  simp

theorem spawnChild_effect (cfg : Config) (rnd : SpawnRnd) (i : ℕ) (share : ℚ)
    (cap : ℕ) (st : Store Org) (c : ℕ) (rest : List ℕ)
    (hInv : Inv cap st) (hact : st.activeAt i) (hfree : st.free = c :: rest) :
    Inv cap (spawnChild cfg rnd i share st) ∧
    (spawnChild cfg rnd i share st).activeAt i ∧
    (spawnChild cfg rnd i share st).free = rest ∧
    (spawnChild cfg rnd i share st).count = st.count + 1 ∧
    (∀ j, st.activeAt j →
      (spawnChild cfg rnd i share st).slots[j]? = st.slots[j]? ∧
      (spawnChild cfg rnd i share st).activeAt j) ∧
    (∀ j, (spawnChild cfg rnd i share st).activeAt j → ¬ st.activeAt j →
      ((spawnChild cfg rnd i share st).slots[j]?).map Org.energy = some share) ∧
    totalEnergy (spawnChild cfg rnd i share st) = totalEnergy st + share := by
  obtain ⟨hsl, hal, hc, hf, hnd, hin⟩ := hInv
  have hInv' : Inv cap st := ⟨hsl, hal, hc, hf, hnd, hin⟩
  have hcF : st.activeF[c]? = some false :=
    hin c (by rw [hfree]; exact List.mem_cons_self c rest)
  have hclt : c < st.activeF.length := by
    by_contra hge
    rw [List.getElem?_eq_none (by omega)] at hcF
    exact Option.noConfusion hcF
  have hcslt : c < st.slots.length := by omega
  have hci : c ≠ i := by
    intro he
    rw [Store.activeAt] at hact
    rw [he, hact] at hcF
    exact Bool.noConfusion (Option.some.inj hcF)
  set child := inheritOrg cfg (st.slots.getD i org0) (st.slots.getD i org0).x
    (st.slots.getD i org0).y rnd with hchild
  have hcons := spawnChild_cons cfg rnd i share st c rest hfree
  rw [← hchild] at hcons
  have hInv1 : Inv cap ({ slots := st.slots.set c child,
                          activeF := st.activeF.set c true,
                          free := rest, count := st.count + 1 } : Store Org) := by
    have h1 := inv_spawn cap st child hInv'
    rw [Store.spawn_cons st child c rest hfree] at h1
    exact h1
  refine ⟨?_, ?_, ?_, ?_, ?_, ?_, ?_⟩
  · rw [hcons]
    exact inv_setEnergy cap _ c share hInv1
  · rw [hcons]
    show (st.activeF.set c true)[i]? = some true
    rw [List.getElem?_set_ne hci]
    exact hact
  · rw [hcons]; rfl
  · rw [hcons]; rfl
  · intro j hj
    have hcj : c ≠ j := by
      intro he
      rw [Store.activeAt] at hj
      rw [he, hj] at hcF
      exact Bool.noConfusion (Option.some.inj hcF)
    constructor
    · rw [hcons]
      show (modifyIdx _ c (st.slots.set c child))[j]? = _
      rw [getElem?_modifyIdx_ne _ c j hcj, List.getElem?_set_ne hcj]
    · rw [hcons]
      show (st.activeF.set c true)[j]? = some true
      rw [List.getElem?_set_ne hcj]
      exact hj
  · intro j hj hnj
    have hjc : j = c := by
      by_contra hne
      apply hnj
      rw [hcons] at hj
      have : (st.activeF.set c true)[j]? = st.activeF[j]? :=
        List.getElem?_set_ne (fun he => hne he.symm)
      rw [Store.activeAt] at hj ⊢
      rw [← this]
      exact hj
    subst hjc
    rw [hcons]
    show ((modifyIdx _ j (st.slots.set j child))[j]?).map Org.energy = _
    rw [getElem?_modifyIdx_self, List.getElem?_set_self hcslt]
    rfl
  · rw [hcons]
    show energySum (modifyIdx _ c (st.slots.set c child)) (st.activeF.set c true) = _
    rw [energySum_modify_true _ (st.slots.set c child) (st.activeF.set c true) c child
      (by rw [List.getElem?_set_self hclt]) (by rw [List.getElem?_set_self hcslt])]
    rw [energySum_set_true st.slots st.activeF c child hcF hcslt]
    show totalEnergy st + child.energy - child.energy + share = totalEnergy st + share
    ring

theorem reproLoop_spec (cfg : Config) (rnds : ℕ → SpawnRnd) (cap : ℕ) (i : ℕ)
    (share : ℚ) :
    ∀ (k : ℕ) (st : Store Org), Inv cap st → st.activeAt i →
      Inv cap (reproLoop cfg rnds i share k st) ∧
      (reproLoop cfg rnds i share k st).count
        = st.count + (↑(min k st.free.length) : ℤ) ∧
      (∀ j, st.activeAt j →
        (reproLoop cfg rnds i share k st).slots[j]? = st.slots[j]? ∧
        (reproLoop cfg rnds i share k st).activeAt j) ∧
      (∀ j, (reproLoop cfg rnds i share k st).activeAt j → ¬ st.activeAt j →
        ((reproLoop cfg rnds i share k st).slots[j]?).map Org.energy
          = some share) ∧
      totalEnergy (reproLoop cfg rnds i share k st)
        = totalEnergy st + (↑(min k st.free.length) : ℚ) * share := by
  intro k
  induction k with
  | zero =>
    intro st hInv hact
    refine ⟨hInv, by simp [reproLoop], ?_, ?_, by simp [reproLoop]⟩
    · intro j hj
      exact ⟨rfl, hj⟩
    · intro j hj hnj
      exact absurd hj hnj
  | succ k ih =>
    intro st hInv hact
    have hstep : reproLoop cfg rnds i share (k + 1) st
        = reproLoop cfg rnds i share k (spawnChild cfg (rnds k) i share st) := rfl
    cases hfree : st.free with
    | nil =>
      have hnoop : spawnChild cfg (rnds k) i share st = st := by
        simp only [spawnChild]
        rw [Store.spawn_nil _ _ hfree]
        simp
      rw [hstep, hnoop]
      have h := ih st hInv hact
      simpa [hfree] using h
    | cons c rest =>
      obtain ⟨hI2, hact2, hfree2, hcount2, hold2, hnew2, htot2⟩ :=
        spawnChild_effect cfg (rnds k) i share cap st c rest hInv hact hfree
      obtain ⟨rI, rcount, rold, rnew, rtot⟩ :=
        ih (spawnChild cfg (rnds k) i share st) hI2 hact2
      rw [hstep]
      refine ⟨rI, ?_, ?_, ?_, ?_⟩
      · rw [rcount, hcount2, hfree2]
        simp only [List.length_cons, Nat.succ_min_succ]
        push_cast
        ring
      · intro j hj
        have h2 := hold2 j hj
        have h3 := rold j h2.2
        exact ⟨h3.1.trans h2.1, h3.2⟩
      · intro j hj hnj
        by_cases hj2 : (spawnChild cfg (rnds k) i share st).activeAt j
        · have hsh := hnew2 j hj2 hnj
          have h4 := rold j hj2
          rw [h4.1]
          exact hsh
        · exact rnew j hj hj2
      · rw [rtot, htot2, hfree2]
        simp only [List.length_cons, Nat.succ_min_succ]
        push_cast
        ring

/-! ## Claim theorems -/

/-- C4: after any mutation applied during inherited spawn, every
offspring trait lies within its declared range — speed, size, sense,
reproduction threshold, wander, defense and metabolism clamp to range
unconditionally, and hue wraps modulo 360 into `[0, 360)`.  The two
hypotheses record the reachable regime of the parent: its hue is already
wrapped into `[0, 360)` and the magnitude draw is a `Math.random()`
result, hence nonnegative. -/
theorem inheritOrg_traits_in_range (cfg : Config) (p : Org) (x y : ℚ)
    (rnd : SpawnRnd) (hhue : 0 ≤ p.hue ∧ p.hue < 360) (hr : 0 ≤ rnd.r 7) :
    TraitsInRange (inheritOrg cfg p x y rnd) ∧
    (inheritOrg cfg p x y rnd).hue =
      ratFloorMod (p.hue + (if rnd.g 7 then (rnd.r 7 - 1/2) * 30 else 0)) 360 := by
  have hδ : -360 ≤ (if rnd.g 7 then (rnd.r 7 - 1/2) * 30 else 0) := by
    split
    · nlinarith [hr]
    · norm_num
  have hpre : -(360:ℚ) ≤ p.hue + (if rnd.g 7 then (rnd.r 7 - 1/2) * 30 else 0) := by
    have := hhue.1
    linarith
  have hmod := jsRem_add_eq_floorMod
    (p.hue + (if rnd.g 7 then (rnd.r 7 - 1/2) * 30 else 0)) 360 (by norm_num) hpre
  have hnn : 0 ≤ p.hue + (if rnd.g 7 then (rnd.r 7 - 1/2) * 30 else 0) + 360 := by
    linarith
  have hrange := jsRem_nonneg_lt
    (p.hue + (if rnd.g 7 then (rnd.r 7 - 1/2) * 30 else 0) + 360) 360 hnn (by norm_num)
  refine ⟨⟨?_, ?_, ?_, ?_, ?_, ?_, ?_, ?_⟩, ?_⟩
  · exact clamp_mem _ _ _ (by norm_num)
  · exact clamp_mem _ _ _ (by norm_num)
  · exact clamp_mem _ _ _ (by norm_num)
  · exact clamp_mem _ _ _ (by norm_num)
  · exact clamp_mem _ _ _ (by norm_num)
  · exact clamp_mem _ _ _ (by norm_num)
  · exact clamp_mem _ _ _ (by norm_num)
  · exact hrange
  · exact hmod

/-- Witness for C4 at a concrete parent and randomness. -/
theorem inheritOrg_traits_in_range_witness :
    TraitsInRange (inheritOrg defaultConfig
      { org0 with speed := 3, size := 10, sense := 100, repro := 500,
                  wander := 1, defense := 1/2, metab := 1, hue := 350 }
      7 9 spawnRnd0) := by
  have h := inheritOrg_traits_in_range defaultConfig
    { org0 with speed := 3, size := 10, sense := 100, repro := 500,
                wander := 1, defense := 1/2, metab := 1, hue := 350 }
    7 9 spawnRnd0 (by constructor <;> norm_num [org0]) (by norm_num [spawnRnd0])
  exact h.1

/-- C6: after movement integration every coordinate lies in
`[0, worldSize)`, given that the coordinate was in range before the move
and that the velocity magnitude does not exceed the world size (the
velocity clamp bounds it by the speed trait, far below `worldSize`); and
a position advanced to `worldSize + ε` wraps to exactly
`ε mod worldSize = ε` for any `ε ∈ [0, worldSize)`. -/
theorem integrate_wraps (W x v ε : ℚ) (hW : 0 < W) (hx0 : 0 ≤ x) (hxW : x < W)
    (hv : |v| ≤ W) (hε0 : 0 ≤ ε) (hεW : ε < W) :
    (0 ≤ integrateCoord W x v ∧ integrateCoord W x v < W) ∧
    wrapCoord W (W + ε) = ε ∧ ratFloorMod ε W = ε := by
  have hvl : -W ≤ v := (abs_le.mp hv).1
  have hvr : v ≤ W := (abs_le.mp hv).2
  refine ⟨?_, ?_, ?_⟩
  · unfold integrateCoord wrapCoord
    by_cases h1 : x + v < 0
    · simp only [h1, if_true]
      have h2 : ¬ (W ≤ x + v + W) := by intro h; linarith
      simp only [h2, if_false]
      constructor <;> linarith
    · simp only [h1, if_false]
      push_neg at h1
      by_cases h2 : W ≤ x + v
      · simp only [h2, if_true]
        constructor <;> linarith
      · simp only [h2, if_false]
        push_neg at h2
        exact ⟨h1, h2⟩
  · unfold wrapCoord
    have h1 : ¬ (W + ε < 0) := by intro h; linarith
    have h2 : W ≤ W + ε := by linarith
    simp only [h1, if_false, h2, if_true]
    ring
  · have hfl : ⌊ε / W⌋ = 0 := by
      apply Int.floor_eq_zero_iff.mpr
      constructor
      · exact div_nonneg hε0 hW.le
      · rw [div_lt_one hW]; exact hεW
    rw [ratFloorMod, hfl]
    push_cast
    ring

/-- Witness for C6 at `W = 10`, `x = 3`, `v = 9`, `ε = 7`. -/
theorem integrate_wraps_witness :
    (0 ≤ integrateCoord 10 3 9 ∧ integrateCoord 10 3 9 < 10) ∧
    wrapCoord 10 (10 + 7) = 7 ∧ ratFloorMod 7 10 = 7 :=
  integrate_wraps 10 3 9 7 (by norm_num) (by norm_num) (by norm_num)
    (by rw [abs_of_nonneg] <;> norm_num) (by norm_num) (by norm_num)

/-- C3: in every reachable state, for both the organism store and the
food store, the active counter equals the number of active-flagged
slots and the free-list size equals capacity minus the active counter;
the invariant holds after every reachable sequence of spawns, kills and
init-style resets (first conjunct, instantiated by the organism store
at `MAX_POP` and the food store at `MAX_FOOD`), and is established anew
by `importState` for both stores (second conjunct). -/
theorem active_counter_invariant :
    (∀ (α : Type) (cap : ℕ) (st : Store α), Reach cap st → Inv cap st) ∧
    (∀ (d : GameDoc) (e : Engine), e.organisms.slots.length = MAX_POP →
       e.food.slots.length = MAX_FOOD →
       Inv MAX_POP (importState d e).organisms ∧
       Inv MAX_FOOD (importState d e).food) := by
  constructor
  · intro α cap st h
    exact reach_inv h
  · intro d e h1 h2
    constructor
    · show Inv MAX_POP (importStore d.organisms tupleToOrg (resetStore MAX_POP e.organisms))
      rw [importStore_eq_raw]
      exact inv_importStoreRaw _ _ _ (inv_reset _ _ h1)
    · show Inv MAX_FOOD (importStore d.food tupleToFood (resetStore MAX_FOOD e.food))
      rw [importStore_eq_raw]
      exact inv_importStoreRaw _ _ _ (inv_reset _ _ h2)

/-- Witness for C3: the invariant at a concrete reachable store (a reset
of a two-slot organism store followed by one spawn). -/
theorem active_counter_invariant_witness :
    Inv 2 (((resetStore 2
      ({ slots := [org0, org0], activeF := [true, true], free := [],
         count := 2 } : Store Org)).spawn org0).1) :=
  active_counter_invariant.1 Org 2 _
    (Reach.spawn org0 (Reach.reset _ (by decide)))

/-- C7: a spawn (organism or food) requested while the corresponding
free list is empty is a no-op returning the sentinel −1 with the engine
unchanged, and under the store invariant the active counter never
exceeds the fixed capacity. -/
theorem spawn_exhausted_noop :
    (∀ (e : Engine) (x y : ℚ) (parent : ℤ) (rnd : SpawnRnd),
        e.organisms.free = [] → e.spawnOrganism x y parent rnd = (e, -1)) ∧
    (∀ (e : Engine) (x y : ℚ), e.food.free = [] → e.spawnFood x y = (e, -1)) ∧
    (∀ (α : Type) (cap : ℕ) (st : Store α), Inv cap st → st.count ≤ (cap : ℤ)) := by
  refine ⟨?_, ?_, ?_⟩
  · intro e x y parent rnd h
    simp only [Engine.spawnOrganism]
    rw [Store.spawn_nil _ _ h]
  · intro e x y h
    simp only [Engine.spawnFood]
    rw [Store.spawn_nil _ _ h]
  · intro α cap st h
    obtain ⟨-, hal, hc, -, -, -⟩ := h
    have := List.count_le_length true st.activeF
    omega

/-- Witness for C7: spawning into the exhausted `engineNoFree` returns
the sentinel and leaves the engine unchanged. -/
theorem spawn_exhausted_noop_witness :
    engineNoFree.spawnOrganism 1 2 (-1) spawnRnd0 = (engineNoFree, -1) ∧
    engineNoFree.spawnFood 1 2 = (engineNoFree, -1) :=
  ⟨spawn_exhausted_noop.1 engineNoFree 1 2 (-1) spawnRnd0 rfl,
   spawn_exhausted_noop.2.1 engineNoFree 1 2 rfl⟩

/-- C1: exporting a snapshot and importing it back reproduces the same
multiset of organism 13-field tuples (in fact the same list: export
visits active slots in index order and import repopulates slots
`0, 1, 2, …` in document order), the same food position list, the same
zone list, the same config values, and the same world scalars and
flags.  The hypotheses state that the store arrays have their fixed
capacity lengths, which holds for every engine by construction. -/
theorem export_import_roundtrip (e : Engine)
    (ho : e.organisms.slots.length = MAX_POP ∧ e.organisms.activeF.length = MAX_POP)
    (hf : e.food.slots.length = MAX_FOOD ∧ e.food.activeF.length = MAX_FOOD) :
    (((roundTrip e).organisms.activeList.map orgToTuple : List (List ℚ)) :
        Multiset (List ℚ))
      = ((e.organisms.activeList.map orgToTuple : List (List ℚ)) :
        Multiset (List ℚ)) ∧
    (roundTrip e).food.activeList.map foodToTuple
      = e.food.activeList.map foodToTuple ∧
    (roundTrip e).zones = e.zones ∧
    (roundTrip e).config = e.config ∧
    (roundTrip e).worldSize = e.worldSize ∧
    (roundTrip e).simSpeed = e.simSpeed ∧
    (roundTrip e).predationActive = e.predationActive ∧
    (roundTrip e).activeZones = e.activeZones ∧
    (roundTrip e).debugMode = e.debugMode := by
  have horg : (roundTrip e).organisms.activeList = e.organisms.activeList :=
    import_export_store MAX_POP e.organisms orgToTuple tupleToOrg
      tupleToOrg_orgToTuple ho.1 ho.2
  have hfood : (roundTrip e).food.activeList = e.food.activeList :=
    import_export_store MAX_FOOD e.food foodToTuple tupleToFood
      tupleToFood_foodToTuple hf.1 hf.2
  refine ⟨?_, ?_, rfl, rfl, rfl, rfl, rfl, rfl, rfl⟩
  · rw [horg]
  · rw [hfood]

/-- Witness for C1 at the freshly constructed engine. -/
theorem export_import_roundtrip_witness :
    (((roundTrip engine0).organisms.activeList.map orgToTuple : List (List ℚ)) :
        Multiset (List ℚ))
      = ((engine0.organisms.activeList.map orgToTuple : List (List ℚ)) :
        Multiset (List ℚ)) ∧
    (roundTrip engine0).food.activeList.map foodToTuple
      = engine0.food.activeList.map foodToTuple ∧
    (roundTrip engine0).zones = engine0.zones ∧
    (roundTrip engine0).config = engine0.config ∧
    (roundTrip engine0).worldSize = engine0.worldSize ∧
    (roundTrip engine0).simSpeed = engine0.simSpeed ∧
    (roundTrip engine0).predationActive = engine0.predationActive ∧
    (roundTrip engine0).activeZones = engine0.activeZones ∧
    (roundTrip engine0).debugMode = engine0.debugMode :=
  export_import_roundtrip engine0
    ⟨by simp [engine0], by simp [engine0]⟩
    ⟨by simp [engine0], by simp [engine0]⟩

/-- C2 (the code at the failing input): `importState` performs no
structural validation.  Importing a document whose single organism tuple
has arity 1 does not fail and does not leave the engine unchanged — it
resets the stores and then activates slot 0, filling the twelve missing
fields with the undefined-entry marker (NaN in the source, modelled as
0): the import silently part-populates state instead of failing fast. -/
theorem importState_no_validation :
    (importState malformedDoc engine0).organisms.count = 1 ∧
    (importState malformedDoc engine0).organisms.activeF.get? 0 = some true ∧
    (importState malformedDoc engine0).organisms.slots.get? 0
      = some (tupleToOrg [5]) ∧
    tupleToOrg [5] = { org0 with x := 5 } :=
  ⟨rfl, rfl, rfl, rfl⟩

/-- C5: when the energy `E` of active slot `i` exceeds its reproduction
threshold at the reproduction step and the free list can supply all
intended offspring, one behavior step produces between 1 and 8 offspring
(count `offspringCount E`, i.e. `floor(E / cost)` for the tiered cost,
clamped into `[1, 8]`), the parent ends with energy
`E / (offspringCount E + 1)`, and every newly activated slot receives
exactly the same share. -/
theorem reproduction_split (cfg : Config) (rnds : ℕ → SpawnRnd) (cap : ℕ)
    (st : Store Org) (i : ℕ) (p : Org)
    (hInv : Inv cap st) (hp : st.slots[i]? = some p) (hact : st.activeAt i)
    (hE : p.repro < p.energy) (hfree8 : 8 ≤ st.free.length) :
    1 ≤ offspringCount p.energy ∧ offspringCount p.energy ≤ 8 ∧
    (reproStep cfg rnds st i).count
      = st.count + (↑(offspringCount p.energy) : ℤ) ∧
    ((reproStep cfg rnds st i).slots[i]?).map Org.energy
      = some (p.energy / (offspringCount p.energy + 1)) ∧
    ∀ j, (reproStep cfg rnds st i).activeAt j → ¬ st.activeAt j →
      ((reproStep cfg rnds st i).slots[j]?).map Org.energy
        = some (p.energy / (offspringCount p.energy + 1)) := by
  have hpD : st.slots.getD i org0 = p := by
    rw [List.getD_eq_getElem?_getD, hp]
    rfl
  have hstep : reproStep cfg rnds st i
      = reproLoop cfg rnds i (p.energy / (offspringCount p.energy + 1))
          (offspringCount p.energy)
          (st.setEnergy i (p.energy / (offspringCount p.energy + 1))) := by
    simp only [reproStep, hpD]
    rw [if_pos hE]
  set share := p.energy / (offspringCount p.energy + 1) with hshare
  set st1 := st.setEnergy i share with hst1
  have hInv1 : Inv cap st1 := inv_setEnergy cap st i share hInv
  have hact1 : st1.activeAt i := hact
  have hslot1 : st1.slots[i]? = some { p with energy := share } :=
    setEnergy_slots_self st i share p hp
  obtain ⟨rI, rcount, rold, rnew, rtot⟩ :=
    reproLoop_spec cfg rnds cap i share (offspringCount p.energy) st1 hInv1 hact1
  have hmin : min (offspringCount p.energy) st1.free.length
      = offspringCount p.energy :=
    Nat.min_eq_left (le_trans (offspringCount_bounds p.energy).2 hfree8)
  refine ⟨(offspringCount_bounds p.energy).1, (offspringCount_bounds p.energy).2,
    ?_, ?_, ?_⟩
  · rw [hstep, rcount, hmin]
    rfl
  · rw [hstep, (rold i hact1).1, hslot1]
    rfl
  · intro j hj hnj
    rw [hstep] at hj ⊢
    exact rnew j hj hnj

/-- Witness for C5: a parent with energy 500 and threshold 100 in a
ten-slot store with nine free slots. -/
theorem reproduction_split_witness :
    1 ≤ offspringCount pOrg.energy ∧ offspringCount pOrg.energy ≤ 8 ∧
    (reproStep defaultConfig (fun _ => spawnRnd0) st5 0).count
      = st5.count + (↑(offspringCount pOrg.energy) : ℤ) ∧
    ((reproStep defaultConfig (fun _ => spawnRnd0) st5 0).slots[0]?).map Org.energy
      = some (pOrg.energy / (offspringCount pOrg.energy + 1)) ∧
    ∀ j, (reproStep defaultConfig (fun _ => spawnRnd0) st5 0).activeAt j →
      ¬ st5.activeAt j →
      ((reproStep defaultConfig (fun _ => spawnRnd0) st5 0).slots[j]?).map Org.energy
        = some (pOrg.energy / (offspringCount pOrg.energy + 1)) :=
  reproduction_split defaultConfig (fun _ => spawnRnd0) 10 st5 0 pOrg
    (by decide) (by decide) (by decide) (by decide) (by decide)

/-- C10: when reproduction triggers but the free list holds fewer
indices than the intended offspring count, the parent energy is still
set to `E / (offspringCount E + 1)` — the shares of the silently
dropped offspring are not retained — only `free.length` offspring are
actually spawned, and the total active energy drops by exactly one
share per dropped offspring. -/
theorem reproduction_dropped (cfg : Config) (rnds : ℕ → SpawnRnd) (cap : ℕ)
    (st : Store Org) (i : ℕ) (p : Org)
    (hInv : Inv cap st) (hp : st.slots[i]? = some p) (hact : st.activeAt i)
    (hE : p.repro < p.energy)
    (hshort : st.free.length < offspringCount p.energy) :
    (reproStep cfg rnds st i).count = st.count + (↑st.free.length : ℤ) ∧
    ((reproStep cfg rnds st i).slots[i]?).map Org.energy
      = some (p.energy / (offspringCount p.energy + 1)) ∧
    totalEnergy (reproStep cfg rnds st i)
      = totalEnergy st
        - (↑(offspringCount p.energy - st.free.length) : ℚ)
          * (p.energy / (offspringCount p.energy + 1)) := by
  have hpD : st.slots.getD i org0 = p := by
    rw [List.getD_eq_getElem?_getD, hp]
    rfl
  have hstep : reproStep cfg rnds st i
      = reproLoop cfg rnds i (p.energy / (offspringCount p.energy + 1))
          (offspringCount p.energy)
          (st.setEnergy i (p.energy / (offspringCount p.energy + 1))) := by
    simp only [reproStep, hpD]
    rw [if_pos hE]
  set share := p.energy / (offspringCount p.energy + 1) with hshare
  set st1 := st.setEnergy i share with hst1
  have hInv1 : Inv cap st1 := inv_setEnergy cap st i share hInv
  have hact1 : st1.activeAt i := hact
  have hslot1 : st1.slots[i]? = some { p with energy := share } :=
    setEnergy_slots_self st i share p hp
  obtain ⟨rI, rcount, rold, rnew, rtot⟩ :=
    reproLoop_spec cfg rnds cap i share (offspringCount p.energy) st1 hInv1 hact1
  have hmin : min (offspringCount p.energy) st1.free.length = st.free.length :=
    Nat.min_eq_right (le_of_lt hshort)
  have htot1 : totalEnergy st1 = totalEnergy st - p.energy + share := by
    show energySum (modifyIdx _ i st.slots) st.activeF = _
    rw [energySum_modify_true _ st.slots st.activeF i p hact hp]
    rfl
  refine ⟨?_, ?_, ?_⟩
  · rw [hstep, rcount, hmin]
    rfl
  · rw [hstep, (rold i hact1).1, hslot1]
    rfl
  · rw [hstep, rtot, htot1, hmin]
    have hk : (↑(offspringCount p.energy - st.free.length) : ℚ)
        = ↑(offspringCount p.energy) - ↑st.free.length :=
      Nat.cast_sub (le_of_lt hshort)
    have hnz : ((offspringCount p.energy : ℚ) + 1) ≠ 0 := by positivity
    have hsh : ((offspringCount p.energy : ℚ) + 1) * share = p.energy := by
      rw [hshare]
      field_simp
    rw [hk]
    linear_combination hsh

theorem offspringCount_500 : offspringCount 500 = 1 := by
  have hc : costPerChild 500 = 300 := by norm_num [costPerChild]
  have hfl : ⌊(500 : ℚ) / costPerChild 500⌋ = 1 := by
    rw [hc, Int.floor_eq_iff]
    norm_num
  rw [offspringCount, hfl]
  rfl

/-- Witness for C10: the same parent in a one-slot store with an empty
free list — the single intended offspring is dropped. -/
theorem reproduction_dropped_witness :
    (reproStep defaultConfig (fun _ => spawnRnd0) st1c 0).count
      = st1c.count + (↑st1c.free.length : ℤ) ∧
    ((reproStep defaultConfig (fun _ => spawnRnd0) st1c 0).slots[0]?).map Org.energy
      = some (pOrg.energy / (offspringCount pOrg.energy + 1)) ∧
    totalEnergy (reproStep defaultConfig (fun _ => spawnRnd0) st1c 0)
      = totalEnergy st1c
        - (↑(offspringCount pOrg.energy - st1c.free.length) : ℚ)
          * (pOrg.energy / (offspringCount pOrg.energy + 1)) :=
  reproduction_dropped defaultConfig (fun _ => spawnRnd0) 1 st1c 0 pOrg
    (by decide) (by decide) (by decide) (by decide)
    (by show (0 : ℕ) < offspringCount (500 : ℚ); rw [offspringCount_500]; norm_num)

/-- C9: in the local-interaction step with predation enabled, when the
attacker size exceeds a co-located active victim size times
`predatorSizeAdvantage` and the victim lies within the attacker size
radius, the attacker energy becomes the victim-defense-reduced absorbed
amount `min(1.5 × reproThreshold, E_attacker − 30 × defense_victim +
E_victim + 5 × size_victim)` (the damage term is proportional to the
victim defense, the absorbed amount is the victim energy plus a
size-proportional bonus, capped at 1.5 × the attacker reproduction
threshold), and the victim is destroyed by the kill. -/
theorem predation_attack_spec (cfg : Config) (W : ℚ) (st : Store Org)
    (i other : ℕ) (a v : Org)
    (ha : st.slots[i]? = some a) (hv : st.slots[other]? = some v)
    (hne : other ≠ i) (hact : st.activeAt other)
    (hsz : v.size * cfg.predatorSizeAdvantage < a.size)
    (hd : wrappedDistSq W a.x a.y v.x v.y < a.size * a.size) :
    ((predationAttack cfg W st i other).slots[i]?).map Org.energy
      = some (min (a.repro * (3/2))
          (a.energy - v.defense * 30 + v.energy + v.size * 5)) ∧
    ¬ (predationAttack cfg W st i other).activeAt other ∧
    (predationAttack cfg W st i other).count = st.count - 1 := by
  have haD : st.slots.getD i org0 = a := by
    rw [List.getD_eq_getElem?_getD, ha]
    rfl
  have hvD : st.slots.getD other org0 = v := by
    rw [List.getD_eq_getElem?_getD, hv]
    rfl
  have hred : predationAttack cfg W st i other
      = (st.setEnergy i (min (a.repro * (3/2))
          (a.energy - v.defense * 30 + v.energy + v.size * 5))).kill other := by
    simp only [predationAttack, haD, hvD]
    rw [if_pos ⟨hne, hact⟩, if_pos hsz, if_pos hd]
  have hothlt : other < st.activeF.length := by
    by_contra hge
    rw [Store.activeAt, List.getElem?_eq_none (by omega)] at hact
    exact Option.noConfusion hact
  refine ⟨?_, ?_, ?_⟩
  · rw [hred]
    show ((st.setEnergy i _).slots[i]?).map Org.energy = _
    rw [setEnergy_slots_self st i _ a ha]
    rfl
  · rw [hred]
    show ¬ ((st.activeF.set other false)[other]? = some true)
    rw [List.getElem?_set_self hothlt]
    simp
  · rw [hred]
    rfl

/-- Witness for C9: a size-10 attacker consuming a co-located size-5
victim at the default predator size advantage. -/
theorem predation_attack_spec_witness :
    ((predationAttack defaultConfig 3000 predStore 0 1).slots[0]?).map Org.energy
      = some (min (predA.repro * (3/2))
          (predA.energy - predV.defense * 30 + predV.energy + predV.size * 5)) ∧
    ¬ (predationAttack defaultConfig 3000 predStore 0 1).activeAt 1 ∧
    (predationAttack defaultConfig 3000 predStore 0 1).count
      = predStore.count - 1 :=
  predation_attack_spec defaultConfig 3000 predStore 0 1 predA predV
    rfl rfl (by decide) rfl
    (by norm_num [predV, predA, defaultConfig, org0])
    (by norm_num [wrappedDistSq, predA, predV, org0])

/-- C8 counterexample: the target zone count of the code is
`ceil(zoneDensity * (worldSize / 3000))` — linear in the world side
length — not `ceil(zoneDensity * worldArea / referenceArea)`.  At the
default density 5 and `worldSize = 6000` the code target is 10 while
the area formula gives 20. -/
theorem zone_target_not_area_counterexample :
    targetZoneCount defaultConfig 6000 ≠
      ⌈defaultConfig.zoneDensity * (6000 * 6000 / ((3000 : ℚ) * 3000))⌉ := by
  have h1 : targetZoneCount defaultConfig 6000 = 10 := by
    rw [targetZoneCount]
    have h : defaultConfig.zoneDensity * ((6000 : ℚ) / 3000) = ((10 : ℤ) : ℚ) := by
      norm_num [defaultConfig]
    rw [h, Int.ceil_intCast]
  have h2 : (⌈defaultConfig.zoneDensity * (6000 * 6000 / ((3000 : ℚ) * 3000))⌉ : ℤ)
      = 20 := by
    have h : defaultConfig.zoneDensity * ((6000 : ℚ) * 6000 / (3000 * 3000))
        = ((20 : ℤ) : ℚ) := by
      norm_num [defaultConfig]
    rw [h, Int.ceil_intCast]
  omega

/-- C8 as amended: the target zone count used by `init` and
`updateEnvironment` equals `ceil(zoneDensity * (worldSize / 3000))` —
it scales linearly with the world side length relative to the reference
side 3000; while zones are enabled and the zone list is below this
target, one update appends a new zone, and a list at or above target
keeps its length — zones above target are never forcibly removed (with
zones disabled the list is cleared, which is outside this claim). -/
theorem zone_target_linear (cfg : Config) (W : ℚ) (r : ZoneRnd)
    (zones : List Zone) :
    targetZoneCount cfg W = ⌈cfg.zoneDensity * (W / 3000)⌉ ∧
    ((zones.length : ℤ) < targetZoneCount cfg W →
      (updateEnvironment cfg W true r zones).length = zones.length + 1) ∧
    (targetZoneCount cfg W ≤ (zones.length : ℤ) →
      (updateEnvironment cfg W true r zones).length = zones.length) := by
  refine ⟨rfl, ?_, ?_⟩
  · intro h
    simp [updateEnvironment, h]
  · intro h
    have hn : ¬ ((zones.length : ℤ) < targetZoneCount cfg W) := not_lt.mpr h
    simp [updateEnvironment, hn]

/-- Witness for the amended C8: one update of an empty zone list at the
default config appends exactly one zone. -/
theorem zone_target_linear_witness :
    (updateEnvironment defaultConfig 3000 true zoneRnd0 []).length = 0 + 1 := by
  have htc : targetZoneCount defaultConfig 3000 = 5 := by
    rw [targetZoneCount]
    have h : defaultConfig.zoneDensity * ((3000 : ℚ) / 3000) = ((5 : ℤ) : ℚ) := by
      norm_num [defaultConfig]
    rw [h, Int.ceil_intCast]
  have := (zone_target_linear defaultConfig 3000 zoneRnd0 []).2.1
    (by rw [htc]; norm_num)
  simpa using this

end EvoLab
